import Mathlib

/-!
Verification of the PCI configuration-space driver (`src/pci/mod.rs`) and the
driver life-cycle trait (`src/lib.rs`).

Configuration space is modelled as a register file indexed by byte offset.
Each 32-bit register has per-offset write semantics: a write of `v` stores
`(v &&& wmask) ||| hw`, covering both plain read/write registers
(`wmask = 0xFFFFFFFF`, `hw = 0`) and BAR-style registers whose low bits are
hardwired and whose writable bits encode the region size (writing all-ones
reads back the size mask).  Reads return the stored value.  `Consistent`
states the invariant every reachable register file satisfies: all values are
32-bit and every stored value is a fixed point of its own write semantics.
-/

namespace DriverKit

structure ConfigSpace where
  store : Nat → Nat
  wmask : Nat → Nat
  hw : Nat → Nat

def ConfigSpace.read (cs : ConfigSpace) (off : Nat) : Nat := cs.store off

def ConfigSpace.write (cs : ConfigSpace) (off v : Nat) : ConfigSpace :=
  { cs with store := fun o => if o = off then ((v &&& cs.wmask off) ||| cs.hw off) else cs.store o }

def Consistent (cs : ConfigSpace) : Prop :=
  ∀ o, cs.wmask o < 2 ^ 32 ∧ cs.hw o < 2 ^ 32 ∧ cs.store o < 2 ^ 32 ∧
    cs.store o = ((cs.store o &&& cs.wmask o) ||| cs.hw o)

/-- The value read back from a register after writing all-ones to it:
the size-encoded mask of a BAR-style register. -/
def probeValue (cs : ConfigSpace) (off : Nat) : Nat :=
  (0xFFFFFFFF &&& cs.wmask off) ||| cs.hw off

@[simp] theorem ConfigSpace.read_write_same (cs : ConfigSpace) (off v : Nat) :
    (cs.write off v).read off = ((v &&& cs.wmask off) ||| cs.hw off) := by
  simp [ConfigSpace.read, ConfigSpace.write]

theorem ConfigSpace.read_write_other (cs : ConfigSpace) {off o : Nat} (v : Nat) (h : o ≠ off) :
    (cs.write off v).read o = cs.read o := by
  simp [ConfigSpace.read, ConfigSpace.write, h]

@[simp] theorem ConfigSpace.wmask_write (cs : ConfigSpace) (off v : Nat) :
    (cs.write off v).wmask = cs.wmask := rfl

@[simp] theorem ConfigSpace.hw_write (cs : ConfigSpace) (off v : Nat) :
    (cs.write off v).hw = cs.hw := rfl

/-- Writing back a value that is already a fixed point of the register's
write semantics restores it exactly. -/
theorem write_fixed_point {cs : ConfigSpace} (hc : Consistent cs) (off : Nat) :
    ((cs.read off &&& cs.wmask off) ||| cs.hw off) = cs.read off :=
  (((hc off).2.2).2).symm

/-- Any value produced by a write is a fixed point of the same register's
write semantics. -/
theorem write_value_fixed_point (w h v : Nat) :
    ((v &&& w) ||| h) = ((((v &&& w) ||| h) &&& w) ||| h) := by
  apply Nat.eq_of_testBit_eq
  intro i
  simp only [Nat.testBit_or, Nat.testBit_and]
  cases v.testBit i <;> cases w.testBit i <;> cases h.testBit i <;> rfl

theorem Consistent.write {cs : ConfigSpace} (hc : Consistent cs) (off v : Nat) :
    Consistent (cs.write off v) := by
  intro o
  obtain ⟨hw', hh, hs, he⟩ := hc o
  refine ⟨hw', hh, ?_, ?_⟩ <;> simp only [ConfigSpace.write] <;> split
  · next h => subst h
              exact Nat.or_lt_two_pow (Nat.lt_of_le_of_lt (Nat.and_le_right) hw') hh
  · exact hs
  · next h => subst h
              exact write_value_fixed_point _ _ _
  · exact he

end DriverKit

namespace DriverKit

/-! ## Address codec (`PCIAddress`, claim C7) -/

structure PCIAddress where
  bus : Nat
  dev : Nat
  fun' : Nat
deriving DecidableEq, Repr

namespace PCIAddress

/-- Models `PCIAddress::new` from the source: `assert!(dev <= 31); assert!(fun <= 7)`.
A failed assertion is modelled as `none` (fatal). -/
def new (bus dev fun' : Nat) : Option PCIAddress :=
  if dev ≤ 31 then
    if fun' ≤ 7 then some ⟨bus, dev, fun'⟩ else none
  else none

/-- Models `PCIAddress::addr` from the source:
`(1 << 31) | (bus << 16) | (dev << 11) | (fun << 8)`. -/
def addr (a : PCIAddress) : Nat :=
  (1 <<< 31) ||| (a.bus <<< 16) ||| (a.dev <<< 11) ||| (a.fun' <<< 8)

end PCIAddress

/-- Bits `n ≤ i` of a value `< 2^n` are clear. -/
theorem testBit_eq_false_of_lt {x n i : Nat} (hx : x < 2 ^ n) (hi : n ≤ i) :
    x.testBit i = false :=
  Nat.testBit_lt_two_pow (Nat.lt_of_lt_of_le hx (Nat.pow_le_pow_right (by omega) hi))

/-- Claim C7: address construction fails (fatally) whenever `dev > 31` or
`fun > 7`; for every in-range triple the encoded configuration address word
has the enable bit (bit 31) set, the bus in bits 16–23, the device in bits
11–15 and the function in bits 8–10, so decoding the bit fields recovers the
original triple. -/
theorem pciaddress_encode_decode :
    (∀ bus dev fun', 31 < dev ∨ 7 < fun' → PCIAddress.new bus dev fun' = none) ∧
    (∀ bus dev fun', bus ≤ 255 → dev ≤ 31 → fun' ≤ 7 →
      ∃ a, PCIAddress.new bus dev fun' = some a ∧
        a.addr.testBit 31 = true ∧
        (a.addr >>> 16) &&& 0xFF = bus ∧
        (a.addr >>> 11) &&& 0x1F = dev ∧
        (a.addr >>> 8) &&& 0x7 = fun') := by
  constructor
  · intro bus dev fun' h
    unfold PCIAddress.new
    rcases h with h | h
    · rw [if_neg (by omega)]
    · by_cases hd : dev ≤ 31
      · rw [if_pos hd, if_neg (by omega)]
      · rw [if_neg hd]
  · intro bus dev fun' hb hd hf
    refine ⟨⟨bus, dev, fun'⟩, ?_, ?_, ?_, ?_, ?_⟩
    · unfold PCIAddress.new
      rw [if_pos hd, if_pos hf]
    · simp [PCIAddress.addr, Nat.testBit_or, Nat.testBit_shiftLeft]
      exact Or.inl (Or.inl (Or.inl (by decide)))
    · apply Nat.eq_of_testBit_eq
      intro i
      have h255 : (0xFF : Nat) = 2 ^ 8 - 1 := rfl
      simp only [PCIAddress.addr, h255, Nat.testBit_and, Nat.testBit_or,
        Nat.testBit_shiftRight, Nat.testBit_shiftLeft,
        Nat.testBit_two_pow_sub_one]
      by_cases hi : i < 8
      · have hb31 : Nat.testBit 1 (16 + i - 31) = false ∨ ¬ (31 ≤ 16 + i) := by
          right; omega
        have hdev : dev.testBit (16 + i - 11) = false :=
          testBit_eq_false_of_lt (show dev < 2 ^ 5 by omega) (by omega)
        have hfun : fun'.testBit (16 + i - 8) = false :=
          testBit_eq_false_of_lt (show fun' < 2 ^ 3 by omega) (by omega)
        have h16 : (16 : Nat) ≤ 16 + i := by omega
        have h11 : (11 : Nat) ≤ 16 + i := by omega
        have h8 : (8 : Nat) ≤ 16 + i := by omega
        have h31 : ¬ (31 : Nat) ≤ 16 + i := by omega
        simp [h16, h11, h8, h31, hdev, hfun, hi, Nat.add_sub_cancel_left]
      · have hbus : bus.testBit i = false :=
          testBit_eq_false_of_lt (show bus < 2 ^ 8 by omega) (by omega)
        have hdev : dev.testBit (16 + i - 11) = false :=
          testBit_eq_false_of_lt (show dev < 2 ^ 5 by omega) (by omega)
        have hfun : fun'.testBit (16 + i - 8) = false :=
          testBit_eq_false_of_lt (show fun' < 2 ^ 3 by omega) (by omega)
        have hbus' : bus.testBit (16 + i - 16) = false :=
          testBit_eq_false_of_lt (show bus < 2 ^ 8 by omega) (by omega)
        simp [hbus, hdev, hfun, hbus', hi]
    · apply Nat.eq_of_testBit_eq
      intro i
      have h31 : (0x1F : Nat) = 2 ^ 5 - 1 := rfl
      simp only [PCIAddress.addr, h31, Nat.testBit_and, Nat.testBit_or,
        Nat.testBit_shiftRight, Nat.testBit_shiftLeft,
        Nat.testBit_two_pow_sub_one]
      by_cases hi : i < 5
      · have hbus : bus.testBit (11 + i - 16) = false ∨ ¬ (16 ≤ 11 + i) := by
          right; omega
        have hfun : fun'.testBit (11 + i - 8) = false :=
          testBit_eq_false_of_lt (show fun' < 2 ^ 3 by omega) (by omega)
        have h11 : (11 : Nat) ≤ 11 + i := by omega
        have h8 : (8 : Nat) ≤ 11 + i := by omega
        have h16 : ¬ (16 : Nat) ≤ 11 + i := by omega
        have h31' : ¬ (31 : Nat) ≤ 11 + i := by omega
        simp [h11, h8, h16, h31', hfun, hi, Nat.add_sub_cancel_left]
      · have hdev : dev.testBit i = false :=
          testBit_eq_false_of_lt (show dev < 2 ^ 5 by omega) (by omega)
        have hdev' : dev.testBit (11 + i - 11) = false :=
          testBit_eq_false_of_lt (show dev < 2 ^ 5 by omega) (by omega)
        have hfun : fun'.testBit (11 + i - 8) = false :=
          testBit_eq_false_of_lt (show fun' < 2 ^ 3 by omega) (by omega)
        simp [hdev, hdev', hfun, hi]
    · apply Nat.eq_of_testBit_eq
      intro i
      have h7 : (0x7 : Nat) = 2 ^ 3 - 1 := rfl
      simp only [PCIAddress.addr, h7, Nat.testBit_and, Nat.testBit_or,
        Nat.testBit_shiftRight, Nat.testBit_shiftLeft,
        Nat.testBit_two_pow_sub_one]
      by_cases hi : i < 3
      · have hdev : dev.testBit (8 + i - 11) = false ∨ ¬ (11 ≤ 8 + i) := by
          right; omega
        have h8 : (8 : Nat) ≤ 8 + i := by omega
        have h11 : ¬ (11 : Nat) ≤ 8 + i := by omega
        have h16 : ¬ (16 : Nat) ≤ 8 + i := by omega
        have h31' : ¬ (31 : Nat) ≤ 8 + i := by omega
        simp [h8, h11, h16, h31', hi, Nat.add_sub_cancel_left]
      · have hfun : fun'.testBit i = false :=
          testBit_eq_false_of_lt (show fun' < 2 ^ 3 by omega) (by omega)
        have hfun' : fun'.testBit (8 + i - 8) = false :=
          testBit_eq_false_of_lt (show fun' < 2 ^ 3 by omega) (by omega)
        simp [hfun, hfun', hi]

/-- Witness for C7 at `(bus, dev, fun) = (3, 17, 5)`. -/
theorem pciaddress_encode_decode_witness :
    ∃ a, PCIAddress.new 3 17 5 = some a ∧
      a.addr.testBit 31 = true ∧
      (a.addr >>> 16) &&& 0xFF = 3 ∧
      (a.addr >>> 11) &&& 0x1F = 17 ∧
      (a.addr >>> 8) &&& 0x7 = 5 :=
  pciaddress_encode_decode.2 3 17 5 (by decide) (by decide) (by decide)

end DriverKit

namespace DriverKit

/-! ## Device type (`PciDevice::device_type`, claim C10) -/

inductive PciDeviceType where
  | Endpoint
  | PciBridge
  | Unknown
deriving DecidableEq, Repr

/-- Classification of the 32-bit word at offset `0x0c`:
`header.get_bits(16..23)` extracts bits 16–22, i.e. `(w >>> 16) &&& 0x7F`. -/
def deviceTypeOf (w : Nat) : PciDeviceType :=
  match (w >>> 16) &&& 0x7F with
  | 0x00 => PciDeviceType.Endpoint
  | 0x01 => PciDeviceType.PciBridge
  | _ => PciDeviceType.Unknown

/-- Models `PciDevice::device_type` from the source. -/
def deviceType (cs : ConfigSpace) : PciDeviceType :=
  deviceTypeOf (cs.read 0x0c)

/-- Claim C10: classification uses only bits 16–22 of the header word — the
multi-function flag (bit 23) is masked off — so any word with bit 23 set is
classified exactly like the word with bit 23 clear; in particular header-type
bytes `0x80` and `0x81` classify as `Endpoint` and `PciBridge`. -/
theorem device_type_masks_multifunction_bit :
    (∀ w w', (w >>> 16) &&& 0x7F = (w' >>> 16) &&& 0x7F →
      deviceTypeOf w = deviceTypeOf w') ∧
    (∀ w, deviceTypeOf (w ||| (1 <<< 23)) = deviceTypeOf w) ∧
    deviceTypeOf (0x80 <<< 16) = PciDeviceType.Endpoint ∧
    deviceTypeOf (0x81 <<< 16) = PciDeviceType.PciBridge := by
  have key : ∀ w, ((w ||| (1 <<< 23)) >>> 16) &&& 0x7F = (w >>> 16) &&& 0x7F := by
    intro w
    apply Nat.eq_of_testBit_eq
    intro i
    have h127 : (0x7F : Nat) = 2 ^ 7 - 1 := rfl
    simp only [h127, Nat.testBit_and, Nat.testBit_or, Nat.testBit_shiftRight,
      Nat.testBit_shiftLeft, Nat.testBit_two_pow_sub_one]
    by_cases hi : i < 7
    · have : ¬ (23 : Nat) ≤ 16 + i := by omega
      simp [this, hi]
    · simp [hi]
  refine ⟨?_, ?_, by decide, by decide⟩
  · intro w w' h
    unfold deviceTypeOf
    rw [h]
  · intro w
    unfold deviceTypeOf
    rw [key]

/-- Witness for C10: the masking theorem applied to the concrete header words
`0x810000` (bridge, multi-function bit set via `|||`) and `0x010000`. -/
theorem device_type_masks_multifunction_bit_witness :
    deviceTypeOf 0x010000 = deviceTypeOf 0x810000 ∧
    deviceTypeOf 0x810000 = PciDeviceType.PciBridge :=
  ⟨device_type_masks_multifunction_bit.1 0x010000 0x810000 (by decide),
   by decide⟩

/-! ## Tagged identifiers (`CapabilityId`, `ClassCode`, claim C8) -/

inductive CapabilityId where
  | Null
  | PowerManagement
  | Agp
  | Vdp
  | SlotIdent
  | Msi
  | CompactPci
  | PciX
  | HyperTransport
  | VendorSpecific
  | DebugPort
  | CompactPCI
  | HotPlug
  | BridgeSubsystemVendor
  | Agp8
  | SecureDevice
  | PCIExpress
  | MsiX
  | SerialAtaConfiguration
  | AdvancedFeatures
  | EnhancedAllocation
  | FlatteningPortalBridge
  | Unknown (raw : Nat)
deriving DecidableEq, Repr

/-- Models `impl From<u8> for CapabilityId` from the source. -/
def CapabilityId.fromNat (capid : Nat) : CapabilityId :=
  match capid with
  | 0x00 => CapabilityId.Null
  | 0x01 => CapabilityId.PowerManagement
  | 0x02 => CapabilityId.Agp
  | 0x03 => CapabilityId.Vdp
  | 0x04 => CapabilityId.SlotIdent
  | 0x05 => CapabilityId.Msi
  | 0x06 => CapabilityId.CompactPci
  | 0x07 => CapabilityId.PciX
  | 0x08 => CapabilityId.HyperTransport
  | 0x09 => CapabilityId.VendorSpecific
  | 0x0A => CapabilityId.DebugPort
  | 0x0B => CapabilityId.CompactPCI
  | 0x0C => CapabilityId.HotPlug
  | 0x0D => CapabilityId.BridgeSubsystemVendor
  | 0x0E => CapabilityId.Agp8
  | 0x0F => CapabilityId.SecureDevice
  | 0x10 => CapabilityId.PCIExpress
  | 0x11 => CapabilityId.MsiX
  | 0x12 => CapabilityId.SerialAtaConfiguration
  | 0x13 => CapabilityId.AdvancedFeatures
  | 0x14 => CapabilityId.EnhancedAllocation
  | 0x15 => CapabilityId.FlatteningPortalBridge
  | x => CapabilityId.Unknown x

/-- The numeric code a `CapabilityId` stands for (inverse of the catalog). -/
def CapabilityId.raw : CapabilityId → Nat
  | CapabilityId.Null => 0x00
  | CapabilityId.PowerManagement => 0x01
  | CapabilityId.Agp => 0x02
  | CapabilityId.Vdp => 0x03
  | CapabilityId.SlotIdent => 0x04
  | CapabilityId.Msi => 0x05
  | CapabilityId.CompactPci => 0x06
  | CapabilityId.PciX => 0x07
  | CapabilityId.HyperTransport => 0x08
  | CapabilityId.VendorSpecific => 0x09
  | CapabilityId.DebugPort => 0x0A
  | CapabilityId.CompactPCI => 0x0B
  | CapabilityId.HotPlug => 0x0C
  | CapabilityId.BridgeSubsystemVendor => 0x0D
  | CapabilityId.Agp8 => 0x0E
  | CapabilityId.SecureDevice => 0x0F
  | CapabilityId.PCIExpress => 0x10
  | CapabilityId.MsiX => 0x11
  | CapabilityId.SerialAtaConfiguration => 0x12
  | CapabilityId.AdvancedFeatures => 0x13
  | CapabilityId.EnhancedAllocation => 0x14
  | CapabilityId.FlatteningPortalBridge => 0x15
  | CapabilityId.Unknown x => x

inductive ClassCode where
  | IDEController
  | SATAController
  | EthernetController
  | VGACompatibleController
  | RAMController
  | HostBridge
  | ISABridge
  | OtherBridge
  | Unknown
deriving DecidableEq, Repr

/-- Models `impl From<u16> for ClassCode` from the source: note the fallback arm is
the payload-free variant `ClassCode::Unknown` (declared `Unknown = 0xffff`),
which does not carry the raw value. -/
def ClassCode.fromNat (value : Nat) : ClassCode :=
  match value with
  | 0x0101 => ClassCode.IDEController
  | 0x0106 => ClassCode.SATAController
  | 0x0200 => ClassCode.EthernetController
  | 0x0300 => ClassCode.VGACompatibleController
  | 0x0500 => ClassCode.RAMController
  | 0x0600 => ClassCode.HostBridge
  | 0x0601 => ClassCode.ISABridge
  | 0x0680 => ClassCode.OtherBridge
  | _ => ClassCode.Unknown

/-- Counterexample to claim C8: the class-code conversion is *not* lossless —
the two distinct unrecognized codes `0x1234` and `0x5678` map to the same
payload-free `Unknown` variant, so the original number cannot be recovered. -/
theorem classcode_conversion_lossy :
    ClassCode.fromNat 0x1234 = ClassCode.fromNat 0x5678 ∧
    (0x1234 : Nat) ≠ 0x5678 := by
  constructor
  · rfl
  · decide

/-- Claim C8 as amended: the capability-ID conversion is lossless — every raw
code round-trips through `CapabilityId.fromNat` (unrecognized codes are kept
in the `Unknown raw` arm) — while the class-code conversion maps every
unrecognized 16-bit pair to the payload-free `Unknown` variant. -/
theorem capability_id_lossless_classcode_not :
    (∀ x : Nat, (CapabilityId.fromNat x).raw = x) ∧
    (∀ x y : Nat, CapabilityId.fromNat x = CapabilityId.fromNat y → x = y) ∧
    (∀ v : Nat, v ∉ [0x0101, 0x0106, 0x0200, 0x0300, 0x0500, 0x0600, 0x0601, 0x0680] →
      ClassCode.fromNat v = ClassCode.Unknown) := by
  have hround : ∀ x : Nat, (CapabilityId.fromNat x).raw = x := by
    intro x
    match x with
    | 0x00 | 0x01 | 0x02 | 0x03 | 0x04 | 0x05 | 0x06 | 0x07
    | 0x08 | 0x09 | 0x0A | 0x0B | 0x0C | 0x0D | 0x0E | 0x0F
    | 0x10 | 0x11 | 0x12 | 0x13 | 0x14 | 0x15 => rfl
    | (n + 22) => rfl
  refine ⟨hround, ?_, ?_⟩
  · intro x y h
    have := congrArg CapabilityId.raw h
    rwa [hround, hround] at this
  · intro v hv
    simp only [List.mem_cons, List.not_mem_nil, or_false, not_or] at hv
    obtain ⟨h1, h2, h3, h4, h5, h6, h7, h8⟩ := hv
    unfold ClassCode.fromNat
    repeat' split
    all_goals first | rfl | (exfalso; omega)

/-- Witness for C8 (amended): round-trip at the unrecognized code `0xC3` and
class-code fallback at the unrecognized pair `0x1234`. -/
theorem capability_id_lossless_classcode_not_witness :
    (CapabilityId.fromNat 0xC3).raw = 0xC3 ∧
    ClassCode.fromNat 0x1234 = ClassCode.Unknown :=
  ⟨capability_id_lossless_classcode_not.1 0xC3,
   capability_id_lossless_classcode_not.2.2 0x1234 (by decide)⟩

end DriverKit

namespace DriverKit

/-! ## Driver life-cycle (`DriverControl`, `DriverState`, claim C9)

In the source (`src/lib.rs`), `init` asserts its precondition
unconditionally, but the assertions in `attach`, `detach`,
`set_sleep_level` and `destroy` are guarded by `#[cfg(unix)]` and are
therefore compiled only in the unix configuration.  Each transition method
is modelled as a function `DriverState → Option DriverState`, where `none`
is a failed assertion (fatal) and the `cfgUnix` flag selects the build
configuration. -/

inductive DriverState where
  | Uninitialized
  | Initialized
  | Attached (level : Nat)
  | Detached
  | Destroyed
deriving DecidableEq, Repr

def DriverState.isAttached : DriverState → Bool
  | DriverState.Attached _ => true
  | _ => false

namespace DriverControl

/-- Models `DriverControl::init`: asserts `state == Uninitialized` (unconditionally). -/
def init (s : DriverState) : Option DriverState :=
  if s = DriverState.Uninitialized then some DriverState.Initialized else none

/-- Models `DriverControl::attach`: the precondition assert is `#[cfg(unix)]`-gated. -/
def attach (cfgUnix : Bool) (s : DriverState) : Option DriverState :=
  if cfgUnix then
    if s = DriverState.Initialized ∨ s = DriverState.Detached ∨ s.isAttached then
      some (DriverState.Attached 0)
    else none
  else some (DriverState.Attached 0)

/-- Models `DriverControl::detach`: the precondition assert is `#[cfg(unix)]`-gated. -/
def detach (cfgUnix : Bool) (s : DriverState) : Option DriverState :=
  if cfgUnix then
    if s.isAttached then some DriverState.Detached else none
  else some DriverState.Detached

/-- Models `DriverControl::set_sleep_level`: the precondition assert is
`#[cfg(unix)]`-gated. -/
def setSleepLevel (cfgUnix : Bool) (level : Nat) (s : DriverState) : Option DriverState :=
  if cfgUnix then
    if s.isAttached then some (DriverState.Attached level) else none
  else some (DriverState.Attached level)

/-- Models `DriverControl::destroy`: the precondition assert is `#[cfg(unix)]`-gated. -/
def destroy (cfgUnix : Bool) (s : DriverState) : Option DriverState :=
  if cfgUnix then
    if s.isAttached then some DriverState.Destroyed else none
  else some DriverState.Destroyed

/-- One successful transition by any of the five life-cycle methods. -/
def step (cfgUnix : Bool) (s s' : DriverState) : Prop :=
  init s = some s' ∨ attach cfgUnix s = some s' ∨ detach cfgUnix s = some s' ∨
  (∃ level, setSleepLevel cfgUnix level s = some s') ∨ destroy cfgUnix s = some s'

end DriverControl

/-- The legal transitions listed by the claim:
`Uninitialized→Initialized→Attached(0)`, `Attached(x)↔Attached(y)`,
`Attached(x)→Detached→Attached(0)` and `Attached(x)→Destroyed`. -/
def LegalTransition (s s' : DriverState) : Prop :=
  (s = DriverState.Uninitialized ∧ s' = DriverState.Initialized) ∨
  (s = DriverState.Initialized ∧ s' = DriverState.Attached 0) ∨
  (∃ x y, s = DriverState.Attached x ∧ s' = DriverState.Attached y) ∨
  (∃ x, s = DriverState.Attached x ∧ s' = DriverState.Detached) ∨
  (s = DriverState.Detached ∧ s' = DriverState.Attached 0) ∨
  (∃ x, s = DriverState.Attached x ∧ s' = DriverState.Destroyed)

/-- Counterexample to claim C9: not every life-cycle method asserts its
precondition — in the non-unix build (the bare-metal target) `attach` applies
`Attached(0)` from `Uninitialized` silently, an illegal transition performed
without any fatal contract violation. -/
theorem driver_lifecycle_unguarded_nonunix :
    DriverControl.attach false DriverState.Uninitialized
      = some (DriverState.Attached 0) ∧
    ¬ LegalTransition DriverState.Uninitialized (DriverState.Attached 0) := by
  constructor
  · rfl
  · intro h
    simp [LegalTransition] at h

/-- Claim C9 as amended: `init` asserts its precondition unconditionally; the
other four transition methods assert theirs only in the unix configuration.
In the unix configuration the possible transitions are exactly the legal ones
(`Uninitialized→Initialized→Attached(0)`, `Attached(x)↔Attached(y)`,
`Attached(x)→Detached→Attached(0)`, `Attached(x)→Destroyed`) and every other
attempted transition is fatal; in the non-unix configuration
`attach`/`detach`/`set_sleep_level`/`destroy` apply their new state
unconditionally. -/
theorem driver_lifecycle_transitions :
    (∀ s s', DriverControl.step true s s' ↔ LegalTransition s s') ∧
    (∀ s, s ≠ DriverState.Uninitialized → DriverControl.init s = none) ∧
    (∀ s, DriverControl.attach false s = some (DriverState.Attached 0)) ∧
    (∀ s, DriverControl.detach false s = some DriverState.Detached) ∧
    (∀ s level, DriverControl.setSleepLevel false level s = some (DriverState.Attached level)) ∧
    (∀ s, DriverControl.destroy false s = some DriverState.Destroyed) := by
  refine ⟨?_, ?_, fun s => rfl, fun s => rfl, fun s level => rfl, fun s => rfl⟩
  · intro s s'
    cases s <;> cases s' <;>
      simp [DriverControl.step, DriverControl.init, DriverControl.attach,
        DriverControl.detach, DriverControl.setSleepLevel, DriverControl.destroy,
        DriverState.isAttached, LegalTransition, eq_comm]
  · intro s h
    unfold DriverControl.init
    rw [if_neg h]

/-- Witness for C9 (amended): in the unix configuration `Initialized`
steps to `Attached 0` and that transition is legal. -/
theorem driver_lifecycle_transitions_witness :
    LegalTransition DriverState.Initialized (DriverState.Attached 0) :=
  (driver_lifecycle_transitions.1 DriverState.Initialized (DriverState.Attached 0)).mp
    (Or.inr (Or.inl rfl))

end DriverKit

namespace DriverKit

/-! ## Bitwise helper lemmas -/

theorem or_shiftRight (a b n : Nat) : (a ||| b) >>> n = (a >>> n) ||| (b >>> n) := by
  apply Nat.eq_of_testBit_eq
  intro i
  simp [Nat.testBit_or, Nat.testBit_shiftRight]

theorem shiftRight_eq_zero_of_lt {x n : Nat} (h : x < 2 ^ n) : x >>> n = 0 := by
  rw [Nat.shiftRight_eq_div_pow]
  exact Nat.div_eq_of_lt h

theorem shiftLeft_shiftRight_cancel (a n : Nat) : (a <<< n) >>> n = a := by
  rw [Nat.shiftLeft_eq, Nat.shiftRight_eq_div_pow]
  exact Nat.mul_div_cancel a (Nat.two_pow_pos n)

theorem shiftLeft_and_two_pow_sub_one (a n : Nat) : (a <<< n) &&& (2 ^ n - 1) = 0 := by
  rw [Nat.and_pow_two_sub_one_eq_mod, Nat.shiftLeft_eq, Nat.mul_mod_left]

theorem shiftLeft_lt_of_lt {a m : Nat} (n : Nat) (h : a < 2 ^ m) :
    a <<< n < 2 ^ (m + n) := by
  rw [Nat.shiftLeft_eq, Nat.pow_add]
  exact Nat.mul_lt_mul_of_lt_of_le h (Nat.le_refl _) (Nat.two_pow_pos n)

/-! ## MSI-X capability controller (`MsiX`, claim C3)

All accessors are defined relative to the capability offset, as in the
source: `message_control` is the upper half of the 32-bit word at the
offset, `enable` is a read-modify-write of that word, and the BIR and table
offset live in the word at `offset + 4`. -/

/-- Models `MsiX::message_control`: `(read(offset) >> 16) as u16`. -/
def messageControl (cs : ConfigSpace) (offset : Nat) : Nat :=
  (cs.read offset >>> 16) &&& 0xFFFF

/-- Models `MsiX::enabled`: bit 15 of the message control. -/
def msixEnabled (cs : ConfigSpace) (offset : Nat) : Bool :=
  (messageControl cs offset).testBit 15

/-- Models `MsiX::enable`: set bit 15 of message control and write back
`(hdr & 0xFFFF) | (ctrl << 16)`. -/
def msixEnable (cs : ConfigSpace) (offset : Nat) : ConfigSpace :=
  let ctrl := messageControl cs offset ||| (1 <<< 15)
  let hdr := cs.read offset
  cs.write offset ((hdr &&& 0xFFFF) ||| (ctrl <<< 16))

/-- Models `MsiX::table_size`: bits 0–9 of the message control. -/
def tableSize (cs : ConfigSpace) (offset : Nat) : Nat :=
  messageControl cs offset &&& 0x3FF

/-- Models `MsiX::bir`: low 3 bits of the word at `offset + 4`. -/
def bir (cs : ConfigSpace) (offset : Nat) : Nat :=
  cs.read (offset + 4) &&& 0b111

/-- Models `MsiX::table_offset`: the word at `offset + 4` with the low 3 bits
cleared (`& !0b111` on a `u32`). -/
def tableOffset (cs : ConfigSpace) (offset : Nat) : Nat :=
  cs.read (offset + 4) &&& 0xFFFFFFF8

end DriverKit

namespace DriverKit

theorem ConfigSpace.ext_fields {cs cs' : ConfigSpace} (h1 : cs.store = cs'.store)
    (h2 : cs.wmask = cs'.wmask) (h3 : cs.hw = cs'.hw) : cs = cs' := by
  cases cs
  cases cs'
  simp only at h1 h2 h3
  rw [h1, h2, h3]

/-- On a plain read/write register (`wmask = all-ones`, `hw = 0`),
`enable` stores exactly the reconstructed word
`(hdr & 0xFFFF) | ((message-control | bit 15) << 16)`. -/
theorem msixEnable_read {cs : ConfigSpace} {offset : Nat}
    (hwm : cs.wmask offset = 0xFFFFFFFF) (hhw : cs.hw offset = 0) :
    (msixEnable cs offset).read offset
      = ((cs.read offset &&& 0xFFFF) |||
         ((messageControl cs offset ||| (1 <<< 15)) <<< 16)) := by
  have hmask : (0xFFFFFFFF : Nat) = 2 ^ 32 - 1 := rfl
  have hlow : cs.read offset &&& 0xFFFF < 2 ^ 32 :=
    Nat.and_lt_two_pow _ (by decide)
  have hmc : messageControl cs offset < 2 ^ 16 :=
    Nat.and_lt_two_pow _ (by decide)
  have hctrl : messageControl cs offset ||| (1 <<< 15) < 2 ^ 16 :=
    Nat.or_lt_two_pow hmc (by decide)
  have hhi : (messageControl cs offset ||| (1 <<< 15)) <<< 16 < 2 ^ 32 :=
    shiftLeft_lt_of_lt 16 hctrl
  unfold msixEnable
  rw [ConfigSpace.read_write_same, hwm, hhw, Nat.or_zero, hmask,
    Nat.and_pow_two_sub_one_of_lt_two_pow (Nat.or_lt_two_pow hlow hhi)]

/-- After `enable`, the message control is the old one with bit 15 set. -/
theorem messageControl_enable {cs : ConfigSpace} {offset : Nat}
    (hwm : cs.wmask offset = 0xFFFFFFFF) (hhw : cs.hw offset = 0) :
    messageControl (msixEnable cs offset) offset
      = messageControl cs offset ||| (1 <<< 15) := by
  have h16 : (0xFFFF : Nat) = 2 ^ 16 - 1 := rfl
  have hmc : messageControl cs offset < 2 ^ 16 :=
    Nat.and_lt_two_pow _ (by decide)
  have hctrl : messageControl cs offset ||| (1 <<< 15) < 2 ^ 16 :=
    Nat.or_lt_two_pow hmc (by decide)
  have hlow : cs.read offset &&& 0xFFFF < 2 ^ 16 := by
    rw [h16, Nat.and_pow_two_sub_one_eq_mod]
    exact Nat.mod_lt _ (by decide)
  unfold messageControl
  rw [msixEnable_read hwm hhw, or_shiftRight, shiftRight_eq_zero_of_lt hlow,
    shiftLeft_shiftRight_cancel, Nat.zero_or, h16,
    Nat.and_pow_two_sub_one_of_lt_two_pow hctrl]
  rfl

/-- Claim C3: `enable` is a read-modify-write storing
`(original low 16 bits) | ((message-control with bit 15 set) << 16)`;
calling it twice leaves the state of the first call unchanged
(so it is idempotent), leaves the enabled bit set, and alters neither the
table-size field nor the BIR nor the table-offset field. -/
theorem ConfigSpace.write_write_eq (cs : ConfigSpace) (off v v' : Nat)
    (h : ((v' &&& cs.wmask off) ||| cs.hw off) = ((v &&& cs.wmask off) ||| cs.hw off)) :
    (cs.write off v).write off v' = cs.write off v := by
  refine ConfigSpace.ext_fields ?_ rfl rfl
  funext o
  show (if o = off then _ else _) = (if o = off then _ else _)
  by_cases ho : o = off
  · rw [if_pos ho, if_pos ho]
    exact h
  · rw [if_neg ho, if_neg ho]
    show (if o = off then _ else _) = _
    rw [if_neg ho]

/-- Claim C3: `enable` is a read-modify-write storing
`(original low 16 bits) | ((message-control with bit 15 set) << 16)`;
calling it twice leaves the state of the first call unchanged
(so it is idempotent), leaves the enabled bit set, and alters neither the
table-size field nor the BIR nor the table-offset field. -/
theorem msix_enable_idempotent (cs : ConfigSpace) (offset : Nat)
    (hwm : cs.wmask offset = 0xFFFFFFFF) (hhw : cs.hw offset = 0) :
    (msixEnable cs offset).read offset
      = ((cs.read offset &&& 0xFFFF) |||
         ((messageControl cs offset ||| (1 <<< 15)) <<< 16)) ∧
    msixEnable (msixEnable cs offset) offset = msixEnable cs offset ∧
    msixEnabled (msixEnable (msixEnable cs offset) offset) offset = true ∧
    tableSize (msixEnable (msixEnable cs offset) offset) offset
      = tableSize cs offset ∧
    bir (msixEnable (msixEnable cs offset) offset) offset = bir cs offset ∧
    tableOffset (msixEnable (msixEnable cs offset) offset) offset
      = tableOffset cs offset := by
  have h16 : (0xFFFF : Nat) = 2 ^ 16 - 1 := rfl
  have h10 : (0x3FF : Nat) = 2 ^ 10 - 1 := rfl
  have hctrl2 : (messageControl cs offset ||| (1 <<< 15)) ||| (1 <<< 15)
      = messageControl cs offset ||| (1 <<< 15) := by
    rw [Nat.or_assoc, Nat.or_self]
  have hlow2 : (msixEnable cs offset).read offset &&& 0xFFFF
      = cs.read offset &&& 0xFFFF := by
    rw [msixEnable_read hwm hhw, h16, Nat.and_distrib_right,
      shiftLeft_and_two_pow_sub_one, Nat.or_zero, ← h16,
      Nat.and_assoc, Nat.and_self]
  have hX : ((msixEnable cs offset).read offset &&& 0xFFFF) |||
        ((messageControl (msixEnable cs offset) offset ||| (1 <<< 15)) <<< 16)
      = (cs.read offset &&& 0xFFFF) |||
        ((messageControl cs offset ||| (1 <<< 15)) <<< 16) := by
    rw [hlow2, messageControl_enable hwm hhw, hctrl2]
  have hidem : msixEnable (msixEnable cs offset) offset = msixEnable cs offset := by
    conv_lhs => rw [msixEnable]
    conv_rhs => rw [msixEnable]
    refine ConfigSpace.write_write_eq cs offset _ _ ?_
    rw [hX]
  refine ⟨msixEnable_read hwm hhw, hidem, ?_, ?_, ?_, ?_⟩
  · rw [hidem]
    unfold msixEnabled
    rw [messageControl_enable hwm hhw]
    simp only [Nat.testBit_or]
    have : Nat.testBit (1 <<< 15) 15 = true := by decide
    rw [this, Bool.or_true]
  · rw [hidem]
    unfold tableSize
    rw [messageControl_enable hwm hhw, h10, Nat.and_distrib_right]
    have : (1 <<< 15) &&& (2 ^ 10 - 1) = 0 := by decide
    rw [this, Nat.or_zero]
  · rw [hidem]
    unfold bir msixEnable
    rw [ConfigSpace.read_write_other _ _ (by omega)]
  · rw [hidem]
    unfold tableOffset msixEnable
    rw [ConfigSpace.read_write_other _ _ (by omega)]

end DriverKit

namespace DriverKit

/-! ## A concrete configuration space used by the witnesses

An endpoint function (header type byte 0) with:
* a 32-bit memory BAR at `0x10` whose size mask is `0xFFFF0000`,
* a 64-bit memory BAR pair at `0x18`/`0x1c` (low size mask `0xFFFFF000`,
  hardwired locatable bits `0b100`),
* capabilities-present status bit, capability chain `0x40 → 0x50 → 0`
  with an MSI-X capability (table size field 7) at `0x40`. -/
def csX : ConfigSpace where
  store := fun o =>
    if o = 0x04 then 0x02100006
    else if o = 0x0c then 0x00000000
    else if o = 0x10 then 0x12340000
    else if o = 0x18 then 0xABCDE004
    else if o = 0x1c then 0x00000012
    else if o = 0x34 then 0x00000040
    else if o = 0x40 then 0x00075011
    else if o = 0x50 then 0x00000005
    else 0
  wmask := fun o =>
    if o = 0x10 then 0xFFFF0000
    else if o = 0x18 then 0xFFFFF000
    else 0xFFFFFFFF
  hw := fun o => if o = 0x18 then 0x4 else 0

theorem csX_consistent : Consistent csX := by
  intro o
  refine ⟨?_, ?_, ?_, ?_⟩ <;> simp only [csX] <;> split_ifs <;>
    first | decide | omega

/-- An all-zero configuration space: no device state at all. -/
def csZero : ConfigSpace where
  store := fun _ => 0
  wmask := fun _ => 0xFFFFFFFF
  hw := fun _ => 0

/-- Witness for C3 at the MSI-X capability of `csX` (offset `0x40`):
double-enable sets the enabled bit and preserves the table-size field. -/
theorem msix_enable_idempotent_witness :
    msixEnabled (msixEnable (msixEnable csX 0x40) 0x40) 0x40 = true ∧
    tableSize (msixEnable (msixEnable csX 0x40) 0x40) 0x40 = tableSize csX 0x40 ∧
    bir (msixEnable (msixEnable csX 0x40) 0x40) 0x40 = bir csX 0x40 :=
  ⟨(msix_enable_idempotent csX 0x40 rfl rfl).2.2.1,
   (msix_enable_idempotent csX 0x40 rfl rfl).2.2.2.1,
   (msix_enable_idempotent csX 0x40 rfl rfl).2.2.2.2.1⟩

/-! ## Capability-chain walker (`CapabilitiesIter`, claim C5) -/

structure Capability where
  id : CapabilityId
  offset : Nat
deriving DecidableEq, Repr

/-- One step of `CapabilitiesIter::next`: at offset 0 the chain ends;
otherwise read the 32-bit word at the current offset, yield a record with
the word's low 8 bits as identifier and the current offset, and advance to
bits 8–15. -/
def capsNext (cs : ConfigSpace) (next : Nat) : Option (Capability × Nat) :=
  if next = 0 then none
  else
    let capHeader := cs.read next
    some (⟨CapabilityId.fromNat (capHeader &&& 0xFF), next⟩,
          (capHeader >>> 8) &&& 0xFF)

/-- The list of yielded capability records (`fuel` bounds the walk; the
source has no cycle guard, so a well-formed chain is one that terminates
within the fuel). -/
def capsList (cs : ConfigSpace) : Nat → Nat → List Capability
  | 0, _ => []
  | fuel + 1, next =>
    match capsNext cs next with
    | none => []
    | some (c, n') => c :: capsList cs fuel n'

/-- Models `PciDevice::status`: upper 16 bits of the word at offset 4. -/
def status (cs : ConfigSpace) : Nat := (cs.read 0x4 >>> 16) &&& 0xFFFF

/-- Models `PciDevice::capabilities_pointer`: the low 8 bits of the word at offset
`0x34`, provided status bit 4 is set and the pointer is non-zero. -/
def capabilitiesPointer (cs : ConfigSpace) : Option Nat :=
  let capPtr := cs.read 0x34 &&& 0xFF
  if (status cs).testBit 4 ∧ capPtr ≠ 0 then some capPtr else none

/-- Models `PciDevice::capabilities`: start the chain at the capability pointer,
or at 0 (the empty chain) when there is none. -/
def capabilities (cs : ConfigSpace) (fuel : Nat) : List Capability :=
  capsList cs fuel ((capabilitiesPointer cs).getD 0)

/-- Claim C5: the chain is empty unless status bit 4 is set and the pointer
at `0x34` is non-zero; each step yields (low 8 bits of the word, current
offset) and advances to bits 8–15, terminating at offset zero; on the
concrete chain `0x40 → 0x50 → 0` exactly the records at `0x40` and `0x50`
are yielded, in that order. -/
theorem capabilities_chain (cs : ConfigSpace) (fuel : Nat) :
    (¬ ((status cs).testBit 4 = true ∧ cs.read 0x34 &&& 0xFF ≠ 0) →
       capabilities cs fuel = []) ∧
    capsNext cs 0 = none ∧
    (∀ n, n ≠ 0 → capsNext cs n =
       some (⟨CapabilityId.fromNat (cs.read n &&& 0xFF), n⟩,
             (cs.read n >>> 8) &&& 0xFF)) ∧
    capabilities csX 16
      = [⟨CapabilityId.MsiX, 0x40⟩, ⟨CapabilityId.Msi, 0x50⟩] := by
  refine ⟨?_, rfl, ?_, by decide⟩
  · intro h
    unfold capabilities capabilitiesPointer
    rw [if_neg h]
    cases fuel <;> rfl
  · intro n hn
    unfold capsNext
    rw [if_neg hn]

/-- Witness for C5: the empty chain on the all-zero space, and one concrete
step of the walker on `csX`. -/
theorem capabilities_chain_witness :
    capabilities csZero 5 = [] ∧
    capsNext csX 0x50 = some (⟨CapabilityId.Msi, 0x50⟩, 0) :=
  ⟨(capabilities_chain csZero 5).1 (by decide),
   ((capabilities_chain csX 16).2.2.1 0x50 (by decide)).trans (by decide)⟩

end DriverKit

namespace DriverKit

/-! ## BAR decoder (`PciDevice::bar`, claims C1, C2, C6)

`bar` is modelled as a state transformer returning the call's outcome
together with the configuration space after the call.  The Rust function
returns `Option<Bar>` but can also panic; the panics are modelled as
distinct `fatal…` outcomes (`assert!` on the index, `unimplemented!` for
IO BARs and for reserved locatable encodings).  The `u32`/`u64`
complement-and-increment is modelled with `^^^` against all-ones and a
wrapping `% 2^32` / `% 2^64` addition. -/

inductive BarType where
  | Io
  | Mem
deriving DecidableEq, Repr

structure Bar where
  region_type : BarType
  prefetchable : Bool
  address : Nat
  size : Nat
deriving DecidableEq, Repr

inductive BarResult where
  | found (b : Bar)
  | nores
  | fatalIndex
  | fatalIo
  | fatalLocatable
deriving DecidableEq, Repr

/-- The body of `PciDevice::bar` after the index check. -/
def barBody (cs : ConfigSpace) (index : Nat) : BarResult × ConfigSpace :=
  let offset := 0x10 + index * 4
  let base := cs.read offset
  let bartypeIsIo := base.testBit 0
  if bartypeIsIo then (BarResult.fatalIo, cs)
  else
    let locatable := (base >>> 1) &&& 0b11
    let prefetchable := base.testBit 3
    let cs1 := cs.write offset 0xFFFFFFFF
    let sizeEncoded := cs1.read offset
    let cs2 := cs1.write offset base
    if sizeEncoded = 0 then (BarResult.nores, cs2)
    else if locatable = 0 then
      let size := ((0xFFFFFFFF ^^^ (sizeEncoded &&& 0xFFFFFFF0)) + 1) % 2 ^ 32
      (BarResult.found ⟨BarType.Mem, prefetchable, base &&& 0xFFFFFFF0, size⟩, cs2)
    else if locatable = 2 then
      let nextOffset := offset + 4
      let nextBar := cs2.read nextOffset
      let address := (base &&& 0xFFFFFFF0) ||| ((nextBar &&& 0xFFFFFFFF) <<< 32)
      let cs3 := cs2.write nextOffset 0xFFFFFFFF
      let msbSizeEncoded := cs3.read nextOffset
      let cs4 := cs3.write nextOffset nextBar
      let size := (msbSizeEncoded <<< 32) ||| sizeEncoded
      (BarResult.found ⟨BarType.Mem, prefetchable, address,
        ((0xFFFFFFFFFFFFFFFF ^^^ (size &&& 0xFFFFFFFFFFFFFFF0)) + 1) % 2 ^ 64⟩, cs4)
    else (BarResult.fatalLocatable, cs2)

/-- Models `PciDevice::bar`: device-type dispatch and index assertion, then the
probing body. -/
def bar (cs : ConfigSpace) (index : Nat) : BarResult × ConfigSpace :=
  match deviceType cs with
  | PciDeviceType.Endpoint =>
    if index < 6 then barBody cs index else (BarResult.fatalIndex, cs)
  | PciDeviceType.PciBridge =>
    if index < 2 then barBody cs index else (BarResult.fatalIndex, cs)
  | PciDeviceType.Unknown => (BarResult.nores, cs)

/-- The spec's 32-bit size formula: clear the low 4 bits of the encoded
mask, invert, add 1 (32-bit arithmetic). -/
def specSize32 (m : Nat) : Nat :=
  ((0xFFFFFFFF ^^^ (m &&& 0xFFFFFFF0)) + 1) % 2 ^ 32

/-- The spec's 64-bit size formula applied to the concatenated encoded
halves. -/
def specSize64 (m : Nat) : Nat :=
  ((0xFFFFFFFFFFFFFFFF ^^^ (m &&& 0xFFFFFFFFFFFFFFF0)) + 1) % 2 ^ 64

end DriverKit

namespace DriverKit

theorem ConfigSpace.read_write_add_four (cs : ConfigSpace) (off v : Nat) :
    (cs.write off v).read (off + 4) = cs.read (off + 4) :=
  ConfigSpace.read_write_other cs v (by omega)

theorem ConfigSpace.read_write_of_add_four (cs : ConfigSpace) (off v : Nat) :
    (cs.write (off + 4) v).read off = cs.read off :=
  ConfigSpace.read_write_other cs v (by omega)

/-- Every branch of the probing body leaves the probed register (and its
64-bit pair) with their pre-call values: each all-ones write is followed by
a restore of the originally read value before any return. -/
theorem barBody_restore (cs : ConfigSpace) (index : Nat) (hc : Consistent cs) :
    (barBody cs index).2.read (0x10 + index * 4) = cs.read (0x10 + index * 4) ∧
    (barBody cs index).2.read (0x10 + index * 4 + 4)
      = cs.read (0x10 + index * 4 + 4) := by
  by_cases h0 : (cs.read (0x10 + index * 4)).testBit 0
  · simp [barBody, h0]
  · simp only [barBody, h0, Bool.false_eq_true, if_false]
    split_ifs <;>
      refine ⟨?_, ?_⟩ <;>
      simp only [ConfigSpace.read_write_same, ConfigSpace.read_write_add_four,
        ConfigSpace.read_write_of_add_four, ConfigSpace.wmask_write,
        ConfigSpace.hw_write, write_fixed_point hc]

end DriverKit

namespace DriverKit

theorem barBody_io {cs : ConfigSpace} {index : Nat}
    (h0 : (cs.read (0x10 + index * 4)).testBit 0 = true) :
    barBody cs index = (BarResult.fatalIo, cs) := by
  simp [barBody, h0]

theorem barBody_unused {cs : ConfigSpace} {index : Nat}
    (h0 : (cs.read (0x10 + index * 4)).testBit 0 = false)
    (hz : probeValue cs (0x10 + index * 4) = 0) :
    (barBody cs index).1 = BarResult.nores := by
  simp only [probeValue] at hz
  simp only [barBody, h0, Bool.false_eq_true, if_false,
    ConfigSpace.read_write_same, ConfigSpace.wmask_write, ConfigSpace.hw_write]
  rw [if_pos hz]

theorem barBody_loc0 {cs : ConfigSpace} {index : Nat}
    (h0 : (cs.read (0x10 + index * 4)).testBit 0 = false)
    (hz : probeValue cs (0x10 + index * 4) ≠ 0)
    (hloc : (cs.read (0x10 + index * 4) >>> 1) &&& 0b11 = 0) :
    (barBody cs index).1 = BarResult.found
      ⟨BarType.Mem, (cs.read (0x10 + index * 4)).testBit 3,
       cs.read (0x10 + index * 4) &&& 0xFFFFFFF0,
       specSize32 (probeValue cs (0x10 + index * 4))⟩ := by
  simp only [probeValue] at hz ⊢
  simp only [barBody, h0, Bool.false_eq_true, if_false,
    ConfigSpace.read_write_same, ConfigSpace.wmask_write, ConfigSpace.hw_write]
  rw [if_neg hz, if_pos hloc]
  rfl

theorem barBody_loc2 {cs : ConfigSpace} {index : Nat}
    (h0 : (cs.read (0x10 + index * 4)).testBit 0 = false)
    (hz : probeValue cs (0x10 + index * 4) ≠ 0)
    (hloc : (cs.read (0x10 + index * 4) >>> 1) &&& 0b11 = 2) :
    (barBody cs index).1 = BarResult.found
      ⟨BarType.Mem, (cs.read (0x10 + index * 4)).testBit 3,
       (cs.read (0x10 + index * 4) &&& 0xFFFFFFF0) |||
         ((cs.read (0x10 + index * 4 + 4) &&& 0xFFFFFFFF) <<< 32),
       specSize64 ((probeValue cs (0x10 + index * 4 + 4) <<< 32) |||
                   probeValue cs (0x10 + index * 4))⟩ := by
  have hne0 : (cs.read (0x10 + index * 4) >>> 1) &&& 0b11 ≠ 0 := by
    rw [hloc]; decide
  simp only [probeValue] at hz ⊢
  simp only [barBody, h0, Bool.false_eq_true, if_false,
    ConfigSpace.read_write_same, ConfigSpace.wmask_write, ConfigSpace.hw_write,
    ConfigSpace.read_write_add_four]
  rw [if_neg hz, if_neg hne0, if_pos hloc]
  rfl

theorem barBody_loc_reserved {cs : ConfigSpace} {index : Nat}
    (h0 : (cs.read (0x10 + index * 4)).testBit 0 = false)
    (hz : probeValue cs (0x10 + index * 4) ≠ 0)
    (hloc : (cs.read (0x10 + index * 4) >>> 1) &&& 0b11 = 1 ∨
            (cs.read (0x10 + index * 4) >>> 1) &&& 0b11 = 3) :
    (barBody cs index).1 = BarResult.fatalLocatable := by
  have hne0 : (cs.read (0x10 + index * 4) >>> 1) &&& 0b11 ≠ 0 := by
    rcases hloc with h | h <;> rw [h] <;> decide
  have hne2 : (cs.read (0x10 + index * 4) >>> 1) &&& 0b11 ≠ 2 := by
    rcases hloc with h | h <;> rw [h] <;> decide
  simp only [probeValue] at hz
  simp only [barBody, h0, Bool.false_eq_true, if_false,
    ConfigSpace.read_write_same, ConfigSpace.wmask_write, ConfigSpace.hw_write]
  rw [if_neg hz, if_neg hne0, if_neg hne2]

theorem barBody_nores_inv {cs : ConfigSpace} {index : Nat}
    (h : (barBody cs index).1 = BarResult.nores) :
    probeValue cs (0x10 + index * 4) = 0 := by
  by_cases h0 : (cs.read (0x10 + index * 4)).testBit 0
  · rw [barBody_io h0] at h
    exact absurd h (by simp)
  · by_cases hz : probeValue cs (0x10 + index * 4) = 0
    · exact hz
    · exfalso
      rcases Nat.lt_or_ge ((cs.read (0x10 + index * 4) >>> 1) &&& 0b11) 4 with h4 | h4
      · interval_cases hloc : (cs.read (0x10 + index * 4) >>> 1) &&& 0b11
        · rw [barBody_loc0 (by simpa using h0) hz hloc] at h
          exact absurd h (by simp)
        · rw [barBody_loc_reserved (by simpa using h0) hz (Or.inl hloc)] at h
          exact absurd h (by simp)
        · rw [barBody_loc2 (by simpa using h0) hz hloc] at h
          exact absurd h (by simp)
        · rw [barBody_loc_reserved (by simpa using h0) hz (Or.inr hloc)] at h
          exact absurd h (by simp)
      · have : (cs.read (0x10 + index * 4) >>> 1) &&& 0b11 < 2 ^ 2 := by
          have h3 : (0b11 : Nat) = 2 ^ 2 - 1 := rfl
          rw [h3]
          exact Nat.and_lt_two_pow _ (by norm_num)
        omega

end DriverKit

namespace DriverKit

/-- Claim C1: for a memory BAR, the decoded size of a 32-bit BAR is
`(~(m & !0xF)) + 1` of the size-encoded read-back `m`; for a 64-bit BAR the
two encoded halves are concatenated before the same formula is applied, and
the returned address is the low register with its low 4 bits cleared OR'd
with the high register shifted into the upper half; the spec's example
`0xFFFF0000 ↦ 0x10000` holds. -/
theorem bar_size_address_formula (cs : ConfigSpace) (index : Nat)
    (hdt : deviceType cs = PciDeviceType.Endpoint)
    (hidx : index < 6)
    (hio : (cs.read (0x10 + index * 4)).testBit 0 = false)
    (hz : probeValue cs (0x10 + index * 4) ≠ 0) :
    ((cs.read (0x10 + index * 4) >>> 1) &&& 0b11 = 0 →
      (bar cs index).1 = BarResult.found
        ⟨BarType.Mem, (cs.read (0x10 + index * 4)).testBit 3,
         cs.read (0x10 + index * 4) &&& 0xFFFFFFF0,
         specSize32 (probeValue cs (0x10 + index * 4))⟩) ∧
    ((cs.read (0x10 + index * 4) >>> 1) &&& 0b11 = 2 →
      (bar cs index).1 = BarResult.found
        ⟨BarType.Mem, (cs.read (0x10 + index * 4)).testBit 3,
         (cs.read (0x10 + index * 4) &&& 0xFFFFFFF0) |||
           ((cs.read (0x10 + index * 4 + 4) &&& 0xFFFFFFFF) <<< 32),
         specSize64 ((probeValue cs (0x10 + index * 4 + 4) <<< 32) |||
                     probeValue cs (0x10 + index * 4))⟩) ∧
    specSize32 0xFFFF0000 = 0x10000 := by
  have hbar : bar cs index = barBody cs index := by
    unfold bar
    rw [hdt, if_pos hidx]
  refine ⟨fun hloc => ?_, fun hloc => ?_, by decide⟩
  · rw [hbar]
    exact barBody_loc0 hio hz hloc
  · rw [hbar]
    exact barBody_loc2 hio hz hloc

/-- Witness for C1 on `csX`: the 32-bit BAR at index 0 (size mask
`0xFFFF0000`, size `0x10000`) and the 64-bit BAR pair at index 2. -/
theorem bar_size_address_formula_witness :
    (bar csX 0).1 = BarResult.found ⟨BarType.Mem, false, 0x12340000, 0x10000⟩ ∧
    (bar csX 2).1 = BarResult.found ⟨BarType.Mem, false, 0x12ABCDE000, 0x1000⟩ :=
  ⟨((bar_size_address_formula csX 0 (by decide) (by decide) (by decide)
      (by decide)).1 (by decide)).trans (by decide),
   ((bar_size_address_formula csX 2 (by decide) (by decide) (by decide)
      (by decide)).2.1 (by decide)).trans (by decide)⟩

/-- Claim C2: whenever `bar` returns (with a BAR or with no result), the
probed register at `0x10 + 4·index` — and its 64-bit pair at the next
offset — hold exactly their pre-query values: every size probe is
write-all-ones / read / restore, and the unused-BAR check happens only
after the restore. -/
theorem bar_restores_probed_register (cs : ConfigSpace) (index : Nat)
    (hc : Consistent cs)
    (hret : (bar cs index).1 = BarResult.nores ∨
            ∃ b, (bar cs index).1 = BarResult.found b) :
    (bar cs index).2.read (0x10 + index * 4) = cs.read (0x10 + index * 4) ∧
    (bar cs index).2.read (0x10 + index * 4 + 4)
      = cs.read (0x10 + index * 4 + 4) := by
  unfold bar
  cases hdt : deviceType cs with
  | Endpoint =>
    by_cases hidx : index < 6
    · rw [if_pos hidx]
      exact barBody_restore cs index hc
    · rw [if_neg hidx]
      exact ⟨rfl, rfl⟩
  | PciBridge =>
    by_cases hidx : index < 2
    · rw [if_pos hidx]
      exact barBody_restore cs index hc
    · rw [if_neg hidx]
      exact ⟨rfl, rfl⟩
  | Unknown => exact ⟨rfl, rfl⟩

/-- Witness for C2: the successful 32-bit query at index 0 of `csX` leaves
the probed register and its neighbour unchanged. -/
theorem bar_restores_probed_register_witness :
    (bar csX 0).2.read (0x10 + 0 * 4) = csX.read (0x10 + 0 * 4) ∧
    (bar csX 0).2.read (0x10 + 0 * 4 + 4) = csX.read (0x10 + 0 * 4 + 4) :=
  bar_restores_probed_register csX 0 csX_consistent
    (Or.inr ⟨⟨BarType.Mem, false, 0x12340000, 0x10000⟩, by decide⟩)

/-- A configuration space whose header type byte is `0x02`: neither an
endpoint nor a bridge, so `device_type` is `Unknown`. -/
def csU : ConfigSpace where
  store := fun o => if o = 0x0c then 0x00020000 else 0
  wmask := fun _ => 0xFFFFFFFF
  hw := fun _ => 0

/-- Claim C6: `bar` yields no result exactly for an unknown device type or
an unused BAR (size-encoded read-back zero); an out-of-range index is a
fatal assertion (bounds 6 for endpoints, 2 for bridges); an IO-space BAR
and a reserved locatable value (1 or 3, on a used BAR) are fatal
unimplemented conditions. -/
theorem bar_error_behavior (cs : ConfigSpace) (index : Nat) :
    (deviceType cs = PciDeviceType.Unknown →
      bar cs index = (BarResult.nores, cs)) ∧
    (deviceType cs = PciDeviceType.Endpoint → 6 ≤ index →
      (bar cs index).1 = BarResult.fatalIndex) ∧
    (deviceType cs = PciDeviceType.PciBridge → 2 ≤ index →
      (bar cs index).1 = BarResult.fatalIndex) ∧
    ((deviceType cs = PciDeviceType.Endpoint ∧ index < 6) ∨
     (deviceType cs = PciDeviceType.PciBridge ∧ index < 2) →
      ((cs.read (0x10 + index * 4)).testBit 0 = true →
        (bar cs index).1 = BarResult.fatalIo) ∧
      ((cs.read (0x10 + index * 4)).testBit 0 = false →
        (probeValue cs (0x10 + index * 4) = 0 →
          (bar cs index).1 = BarResult.nores) ∧
        (probeValue cs (0x10 + index * 4) ≠ 0 →
          ((cs.read (0x10 + index * 4) >>> 1) &&& 0b11 = 1 ∨
           (cs.read (0x10 + index * 4) >>> 1) &&& 0b11 = 3) →
          (bar cs index).1 = BarResult.fatalLocatable))) ∧
    ((bar cs index).1 = BarResult.nores →
      deviceType cs = PciDeviceType.Unknown ∨
      probeValue cs (0x10 + index * 4) = 0) := by
  refine ⟨?_, ?_, ?_, ?_, ?_⟩
  · intro h
    unfold bar
    rw [h]
  · intro h hidx
    unfold bar
    rw [h]
    show (if index < 6 then barBody cs index else (BarResult.fatalIndex, cs)).1 = _
    rw [if_neg (by omega)]
  · intro h hidx
    unfold bar
    rw [h]
    show (if index < 2 then barBody cs index else (BarResult.fatalIndex, cs)).1 = _
    rw [if_neg (by omega)]
  · intro hin
    have hbar : bar cs index = barBody cs index := by
      unfold bar
      rcases hin with ⟨h, hidx⟩ | ⟨h, hidx⟩ <;> rw [h, if_pos hidx]
    refine ⟨fun h0 => ?_, fun h0 => ⟨fun hz => ?_, fun hz hloc => ?_⟩⟩
    · rw [hbar, barBody_io h0]
    · rw [hbar]
      exact barBody_unused h0 hz
    · rw [hbar]
      exact barBody_loc_reserved h0 hz hloc
  · intro h
    cases hdt : deviceType cs with
    | Unknown => exact Or.inl rfl
    | Endpoint =>
      right
      by_cases hidx : index < 6
      · have hbar : bar cs index = barBody cs index := by
          unfold bar
          rw [hdt, if_pos hidx]
        rw [hbar] at h
        exact barBody_nores_inv h
      · exfalso
        have hf : (bar cs index).1 = BarResult.fatalIndex := by
          unfold bar
          rw [hdt, if_neg hidx]
        rw [hf] at h
        exact absurd h (by decide)
    | PciBridge =>
      right
      by_cases hidx : index < 2
      · have hbar : bar cs index = barBody cs index := by
          unfold bar
          rw [hdt, if_pos hidx]
        rw [hbar] at h
        exact barBody_nores_inv h
      · exfalso
        have hf : (bar cs index).1 = BarResult.fatalIndex := by
          unfold bar
          rw [hdt, if_neg hidx]
        rw [hf] at h
        exact absurd h (by decide)

/-- Witness for C6: an unknown device type yields no result, and index 6 on
the endpoint `csX` trips the fatal index assertion. -/
theorem bar_error_behavior_witness :
    bar csU 0 = (BarResult.nores, csU) ∧
    (bar csX 6).1 = BarResult.fatalIndex :=
  ⟨(bar_error_behavior csU 0).1 (by decide),
   (bar_error_behavior csX 6).2.1 (by decide) (by decide)⟩

end DriverKit

namespace DriverKit

/-! ## Bus scanner (`PciDeviceIterator`, `scan_bus`, claim C4)

The iterator state is the `(bus, device, function)` resume position; one
call to `next` walks the three nested `for` loops from that position
(ranges `0–255`, `0–31`, `0–7`), restarting the inner ranges at 0 as each
is exhausted, and yields the first candidate passing the presence check
together with the resume state `(bus, device, function + 1)`.  `present`
abstracts `PciDevice::new`, which succeeds exactly when the 32-bit read at
offset 0 of the candidate address is not all-ones.  The structurally
decreasing `fuel` argument bounds the (always bounded) loop; `73985` is
the worst-case number of loop steps of one call (from `(0,0,0)`:
65536 candidate visits plus 8449 range-exhaustion transitions). -/

structure ScanState where
  bus : Nat
  device : Nat
  function : Nat
deriving DecidableEq, Repr

def nextAux (present : PCIAddress → Bool) :
    Nat → Nat → Nat → Nat → Option (PCIAddress × ScanState)
  | 0, _, _, _ => none
  | fuel + 1, b, d, f =>
    if 255 < b then none
    else if 31 < d then nextAux present fuel (b + 1) 0 0
    else if 7 < f then nextAux present fuel b (d + 1) 0
    else if present ⟨b, d, f⟩ then some (⟨b, d, f⟩, ⟨b, d, f + 1⟩)
    else nextAux present fuel b d (f + 1)

/-- Models `PciDeviceIterator::next`. -/
def next (present : PCIAddress → Bool) (s : ScanState) :
    Option (PCIAddress × ScanState) :=
  nextAux present 73985 s.bus s.device s.function

/-- Models `scan_bus`: a fresh iterator at `(0, 0, 0)`. -/
def scan_bus : ScanState := ⟨0, 0, 0⟩

/-- The addresses yielded by repeated `next` calls (at most `n` of them;
the sequence ends at the first `none`). -/
def collect (present : PCIAddress → Bool) : Nat → ScanState → List PCIAddress
  | 0, _ => []
  | n + 1, s =>
    match next present s with
    | none => []
    | some (a, s') => a :: collect present n s'

/-- The candidate addresses the scanner visits from a given position, in
visiting order (independent of presence). -/
def candAux : Nat → Nat → Nat → Nat → List PCIAddress
  | 0, _, _, _ => []
  | fuel + 1, b, d, f =>
    if 255 < b then []
    else if 31 < d then candAux fuel (b + 1) 0 0
    else if 7 < f then candAux fuel b (d + 1) 0
    else ⟨b, d, f⟩ :: candAux fuel b d (f + 1)

/-- All 65536 `(bus, device, function)` triples in lexicographic order. -/
def allTriples : List PCIAddress :=
  (List.range 256).flatMap fun b =>
    (List.range 32).flatMap fun d =>
      (List.range 8).map fun f => ⟨b, d, f⟩

/-- One `next` call yields the first present candidate and resumes at
`function + 1`. -/
theorem nextAux_eq (present : PCIAddress → Bool) :
    ∀ fuel b d f,
      nextAux present fuel b d f =
        match (candAux fuel b d f).filter present with
        | [] => none
        | a :: _ => some (a, ⟨a.bus, a.dev, a.fun' + 1⟩) := by
  intro fuel
  induction fuel with
  | zero => intro b d f; rfl
  | succ fuel ih =>
    intro b d f
    show (if 255 < b then none
          else if 31 < d then nextAux present fuel (b + 1) 0 0
          else if 7 < f then nextAux present fuel b (d + 1) 0
          else if present ⟨b, d, f⟩ then some (⟨b, d, f⟩, ⟨b, d, f + 1⟩)
          else nextAux present fuel b d (f + 1)) = _
    simp only [candAux]
    split_ifs with h1 h2 h3 h4
    · rfl
    · exact ih (b + 1) 0 0
    · exact ih b (d + 1) 0
    · rw [List.filter_cons, if_pos h4]
    · rw [List.filter_cons, if_neg h4]
      exact ih b d (f + 1)

end DriverKit

namespace DriverKit

/-- An upper bound on the number of loop steps the scanner performs from
position `(b, d, f)` before exhausting the bus range. -/
def mu (b d f : Nat) : Nat :=
  if 255 < b then 1
  else if 31 < d then (255 - b) * 289 + 2
  else (9 - f) + (31 - d) * 9 + (255 - b) * 289 + 2

theorem mu_le (b d f : Nat) : mu b d f ≤ 73985 := by
  unfold mu
  split_ifs <;> omega

theorem candAux_fuel_succ :
    ∀ fuel b d f, f ≤ 8 → mu b d f ≤ fuel →
      candAux (fuel + 1) b d f = candAux fuel b d f := by
  intro fuel
  induction fuel with
  | zero =>
    intro b d f hf hmu
    exfalso
    unfold mu at hmu
    split_ifs at hmu <;> omega
  | succ fuel ih =>
    intro b d f hf hmu
    conv_lhs => rw [candAux]
    conv_rhs => rw [candAux]
    split_ifs with h1 h2 h3
    · rfl
    · exact ih (b + 1) 0 0 (by omega)
        (by unfold mu at hmu ⊢
            split_ifs at hmu ⊢ <;> omega)
    · exact ih b (d + 1) 0 (by omega)
        (by unfold mu at hmu ⊢
            split_ifs at hmu ⊢ <;> omega)
    · rw [ih b d (f + 1) (by omega)
        (by unfold mu at hmu ⊢
            split_ifs at hmu ⊢ <;> omega)]

theorem candAux_fuel_add (k : Nat) :
    ∀ fuel b d f, f ≤ 8 → mu b d f ≤ fuel →
      candAux (fuel + k) b d f = candAux fuel b d f := by
  induction k with
  | zero => intro fuel b d f _ _; rfl
  | succ k ih =>
    intro fuel b d f hf hmu
    rw [show fuel + (k + 1) = (fuel + k) + 1 from rfl,
      candAux_fuel_succ (fuel + k) b d f hf (by omega), ih fuel b d f hf hmu]

theorem candAux_fuel_eq {fuel₁ fuel₂ : Nat} (b d f : Nat) (hf : f ≤ 8)
    (h1 : mu b d f ≤ fuel₁) (h2 : mu b d f ≤ fuel₂) :
    candAux fuel₁ b d f = candAux fuel₂ b d f := by
  rcases Nat.le_total fuel₁ fuel₂ with h | h
  · rw [show fuel₂ = fuel₁ + (fuel₂ - fuel₁) from by omega,
      candAux_fuel_add _ fuel₁ b d f hf h1]
  · rw [show fuel₁ = fuel₂ + (fuel₁ - fuel₂) from by omega,
      candAux_fuel_add _ fuel₂ b d f hf h2]

theorem mem_candAux :
    ∀ fuel b d f, f ≤ 8 → ∀ x ∈ candAux fuel b d f,
      x.bus ≤ 255 ∧ x.dev ≤ 31 ∧ x.fun' ≤ 7 := by
  intro fuel
  induction fuel with
  | zero =>
    intro b d f _ x hx
    simp [candAux] at hx
  | succ fuel ih =>
    intro b d f hf x hx
    rw [candAux] at hx
    split_ifs at hx with h1 h2 h3
    · simp at hx
    · exact ih (b + 1) 0 0 (by omega) x hx
    · exact ih b (d + 1) 0 (by omega) x hx
    · rcases List.mem_cons.mp hx with rfl | hx'
      · exact ⟨show b ≤ 255 by omega, show d ≤ 31 by omega, show f ≤ 7 by omega⟩
      · exact ih b d (f + 1) (by omega) x hx'

end DriverKit

namespace DriverKit

/-- After yielding the first present candidate `a`, the candidates from the
resume position `(a.bus, a.dev, a.fun' + 1)` filter to exactly the remaining
present candidates. -/
theorem filter_candAux_tail (present : PCIAddress → Bool) :
    ∀ fuel b d f a rest, f ≤ 8 → mu b d f ≤ fuel →
      (candAux fuel b d f).filter present = a :: rest →
      (candAux 73985 a.bus a.dev (a.fun' + 1)).filter present = rest := by
  intro fuel
  induction fuel with
  | zero =>
    intro b d f a rest hf hmu
    exfalso
    unfold mu at hmu
    split_ifs at hmu <;> omega
  | succ fuel ih =>
    intro b d f a rest hf hmu hfil
    rw [candAux] at hfil
    split_ifs at hfil with h1 h2 h3
    · simp at hfil
    · exact ih (b + 1) 0 0 a rest (by omega)
        (by unfold mu at hmu ⊢
            split_ifs at hmu ⊢ <;> omega) hfil
    · exact ih b (d + 1) 0 a rest (by omega)
        (by unfold mu at hmu ⊢
            split_ifs at hmu ⊢ <;> omega) hfil
    · rw [List.filter_cons] at hfil
      by_cases hp : present ⟨b, d, f⟩
      · rw [if_pos hp] at hfil
        injection hfil with ha hrest
        subst ha
        exact (congrArg (List.filter present)
          (candAux_fuel_eq b d (f + 1) (by omega)
            (mu_le b d (f + 1))
            (by unfold mu at hmu ⊢
                split_ifs at hmu ⊢ <;> omega))).trans hrest
      · rw [if_neg hp] at hfil
        exact ih b d (f + 1) a rest (by omega)
          (by unfold mu at hmu ⊢
              split_ifs at hmu ⊢ <;> omega) hfil

/-- Repeated `next` calls from any position yield exactly the present
candidates from that position, in order. -/
theorem collect_eq (present : PCIAddress → Bool) :
    ∀ n b d f, f ≤ 8 →
      ((candAux 73985 b d f).filter present).length ≤ n →
      collect present n ⟨b, d, f⟩ = (candAux 73985 b d f).filter present := by
  intro n
  induction n with
  | zero =>
    intro b d f hf hlen
    have hnil : (candAux 73985 b d f).filter present = [] :=
      List.eq_nil_of_length_eq_zero (Nat.le_zero.mp hlen)
    rw [hnil]
    rfl
  | succ n ih =>
    intro b d f hf hlen
    conv_lhs => rw [collect]
    rw [show next present ⟨b, d, f⟩ = nextAux present 73985 b d f from rfl,
      nextAux_eq]
    cases hfil : (candAux 73985 b d f).filter present with
    | nil => rfl
    | cons a rest =>
      show a :: collect present n ⟨a.bus, a.dev, a.fun' + 1⟩ = a :: rest
      have ha : a ∈ candAux 73985 b d f :=
        List.mem_of_mem_filter (by rw [hfil]; exact List.mem_cons_self a rest)
      obtain ⟨hab, had, haf⟩ := mem_candAux 73985 b d f hf a ha
      have htail := filter_candAux_tail present 73985 b d f a rest hf
        (mu_le b d f) hfil
      have hlen' : ((candAux 73985 a.bus a.dev (a.fun' + 1)).filter present).length ≤ n := by
        rw [htail]
        have := congrArg List.length hfil
        simp only [List.length_cons] at this
        omega
      rw [ih a.bus a.dev (a.fun' + 1) (by omega) hlen', htail]

end DriverKit

namespace DriverKit

/-- One function row of the scan: from `(b, d, f)` the candidates are
`f, f+1, …, 7` on `(b, d)` followed by the candidates from `(b, d+1, 0)`. -/
theorem candAux_row :
    ∀ m fuel b d f, f + m = 8 → d ≤ 31 → b ≤ 255 →
      candAux (fuel + m + 1) b d f
        = ((List.range' f m).map fun f' => (⟨b, d, f'⟩ : PCIAddress)) ++
          candAux fuel b (d + 1) 0 := by
  intro m
  induction m with
  | zero =>
    intro fuel b d f hf hd hb
    have hf8 : f = 8 := by omega
    subst hf8
    conv_lhs => rw [candAux]
    rw [if_neg (by omega), if_neg (by omega), if_pos (by omega)]
    rfl
  | succ m ih =>
    intro fuel b d f hf hd hb
    conv_lhs => rw [show fuel + (m + 1) + 1 = (fuel + m + 1) + 1 from by omega,
      candAux]
    rw [if_neg (by omega), if_neg (by omega), if_neg (by omega),
      ih fuel b d (f + 1) (by omega) hd hb,
      show List.range' f (m + 1) = f :: List.range' (f + 1) m from rfl]
    rfl

/-- One device block: from `(b, d, 0)` the candidates are the rows of
devices `d, …, 31` on bus `b` followed by the candidates from
`(b+1, 0, 0)`. -/
theorem candAux_dev :
    ∀ n fuel b d, d + n = 32 → b ≤ 255 →
      candAux (fuel + n * 9 + 1) b d 0
        = ((List.range' d n).flatMap fun d' =>
            (List.range 8).map fun f => (⟨b, d', f⟩ : PCIAddress)) ++
          candAux fuel (b + 1) 0 0 := by
  intro n
  induction n with
  | zero =>
    intro fuel b d hd hb
    have hd32 : d = 32 := by omega
    subst hd32
    conv_lhs => rw [show fuel + 0 * 9 + 1 = fuel + 1 from by omega, candAux]
    rw [if_neg (by omega), if_pos (by omega)]
    rfl
  | succ n ih =>
    intro fuel b d hd hb
    rw [show fuel + (n + 1) * 9 + 1 = (fuel + n * 9 + 1) + 8 + 1 from by omega,
      candAux_row 8 (fuel + n * 9 + 1) b d 0 (by omega) (by omega) hb,
      ih fuel b (d + 1) (by omega) hb,
      show List.range' d (n + 1) = d :: List.range' (d + 1) n from rfl,
      List.flatMap_cons, List.range_eq_range', List.append_assoc]

/-- The whole scan: from `(b, 0, 0)` the candidates are all triples of
buses `b, …, 255` in lexicographic order. -/
theorem candAux_bus :
    ∀ n fuel b, b + n = 256 →
      candAux (fuel + n * 289 + 1) b 0 0
        = (List.range' b n).flatMap fun b' =>
            (List.range 32).flatMap fun d =>
              (List.range 8).map fun f => (⟨b', d, f⟩ : PCIAddress) := by
  intro n
  induction n with
  | zero =>
    intro fuel b hb
    have hb256 : b = 256 := by omega
    subst hb256
    conv_lhs => rw [show fuel + 0 * 289 + 1 = fuel + 1 from by omega, candAux]
    rw [if_pos (by omega)]
    rfl
  | succ n ih =>
    intro fuel b hb
    rw [show fuel + (n + 1) * 289 + 1 = (fuel + n * 289 + 1) + 32 * 9 + 1 from by omega,
      candAux_dev 32 (fuel + n * 289 + 1) b 0 (by omega) (by omega),
      ih fuel (b + 1) (by omega),
      show List.range' b (n + 1) = b :: List.range' (b + 1) n from rfl,
      List.flatMap_cons,
      show (List.range 32 : List Nat) = List.range' 0 32 from List.range_eq_range' 32]

/-- The scanner's candidate sequence from `(0, 0, 0)` is exactly the
lexicographic enumeration of all 65536 triples. -/
theorem candAux_allTriples : candAux 73985 0 0 0 = allTriples := by
  have h := candAux_bus 256 0 0 (by omega)
  rw [show (0 : Nat) + 256 * 289 + 1 = 73985 from by norm_num] at h
  rw [h]
  unfold allTriples
  rw [show (List.range 256 : List Nat) = List.range' 0 256 from
    List.range_eq_range' 256]

theorem allTriples_length : allTriples.length = 65536 := by
  have hinner : ∀ b : Nat,
      ((List.range 32).flatMap fun d =>
        (List.range 8).map fun f => (⟨b, d, f⟩ : PCIAddress)).length = 256 := by
    intro b
    rw [List.length_flatMap]
    have hmap : (List.map
        (List.length ∘ fun d => (List.range 8).map fun f => (⟨b, d, f⟩ : PCIAddress))
        (List.range 32)) = List.replicate 32 8 := by
      rw [show (List.length ∘ fun d =>
            (List.range 8).map fun f => (⟨b, d, f⟩ : PCIAddress))
          = fun _ => (8 : Nat) from funext fun d => by simp]
      rw [List.map_const', List.length_range]
    rw [hmap, List.sum_replicate, smul_eq_mul]
  unfold allTriples
  rw [List.length_flatMap]
  rw [show (List.length ∘ fun b => (List.range 32).flatMap fun d =>
        (List.range 8).map fun f => (⟨b, d, f⟩ : PCIAddress))
      = fun _ => (256 : Nat) from funext fun b => hinner b]
  rw [List.map_const', List.sum_replicate, smul_eq_mul, List.length_range]

end DriverKit

namespace DriverKit

/-- The simulated presence check of the claim: devices only at
`(0,0,0)`, `(0,3,0)` and `(1,0,0)`. -/
def present3 : PCIAddress → Bool := fun a =>
  (a == ⟨0, 0, 0⟩) || (a == ⟨0, 3, 0⟩) || (a == ⟨1, 0, 0⟩)

theorem filter_allTriples_present3 :
    allTriples.filter present3 = [⟨0, 0, 0⟩, ⟨0, 3, 0⟩, ⟨1, 0, 0⟩] := by
  have hinner : ∀ b, 2 ≤ b →
      (((List.range 32).flatMap fun d =>
        (List.range 8).map fun f => (⟨b, d, f⟩ : PCIAddress)).filter present3) = [] := by
    intro b hb
    rw [List.filter_eq_nil_iff]
    intro a ha
    simp only [List.mem_flatMap, List.mem_map, List.mem_range] at ha
    obtain ⟨d, hd, f, hf, rfl⟩ := ha
    simp only [present3, Bool.or_eq_true, beq_iff_eq, PCIAddress.mk.injEq,
      not_or]
    omega
  unfold allTriples
  rw [List.filter_flatMap]
  rw [show (List.range 256 : List Nat) = 0 :: 1 :: List.range' 2 254 from by
    rw [List.range_eq_range', show (256 : Nat) = 255 + 1 from rfl,
      List.range'_succ, show (255 : Nat) = 254 + 1 from rfl, List.range'_succ]]
  rw [List.flatMap_cons, List.flatMap_cons]
  have h0 : (((List.range 32).flatMap fun d =>
      (List.range 8).map fun f => (⟨0, d, f⟩ : PCIAddress)).filter present3)
      = [⟨0, 0, 0⟩, ⟨0, 3, 0⟩] := by decide
  have h1 : (((List.range 32).flatMap fun d =>
      (List.range 8).map fun f => (⟨1, d, f⟩ : PCIAddress)).filter present3)
      = [⟨1, 0, 0⟩] := by decide
  have hrest : ((List.range' 2 254).flatMap fun b =>
      (((List.range 32).flatMap fun d =>
        (List.range 8).map fun f => (⟨b, d, f⟩ : PCIAddress)).filter present3)) = [] := by
    rw [List.flatMap_eq_nil_iff]
    intro b hb
    obtain ⟨i, _, rfl⟩ := List.mem_range'.mp hb
    exact hinner _ (by omega)
  rw [h0, h1, hrest]
  rfl

/-- Claim C4: repeated `next` calls from a fresh `scan_bus` iterator yield,
for every presence predicate, exactly the candidates passing the presence
check in lexicographic `(bus, device, function)` order over the full ranges
`0–255 × 0–31 × 0–7` (complete and non-overlapping, since the yields are a
sublist of the duplicate-free enumeration); each yield resumes the next
call from `function + 1`; and on the simulated space with devices present
only at `(0,0,0)`, `(0,3,0)`, `(1,0,0)` a full scan yields exactly those
three addresses in that order. -/
theorem scan_bus_enumeration (present : PCIAddress → Bool) :
    collect present 65537 scan_bus = allTriples.filter present ∧
    (∀ s a s', next present s = some (a, s') →
      s' = ⟨a.bus, a.dev, a.fun' + 1⟩) ∧
    collect present3 65537 scan_bus = [⟨0, 0, 0⟩, ⟨0, 3, 0⟩, ⟨1, 0, 0⟩] := by
  have hgen : ∀ p : PCIAddress → Bool,
      collect p 65537 scan_bus = allTriples.filter p := by
    intro p
    have hlen : ((candAux 73985 0 0 0).filter p).length ≤ 65537 := by
      calc ((candAux 73985 0 0 0).filter p).length
          ≤ (candAux 73985 0 0 0).length := List.length_filter_le p _
        _ = 65536 := by rw [candAux_allTriples, allTriples_length]
        _ ≤ 65537 := by omega
    have h := collect_eq p 65537 0 0 0 (by omega) hlen
    rw [show (scan_bus : ScanState) = ⟨0, 0, 0⟩ from rfl, h, candAux_allTriples]
  refine ⟨hgen present, ?_, ?_⟩
  · intro s a s' h
    rw [show next present s = nextAux present 73985 s.bus s.device s.function
      from rfl, nextAux_eq] at h
    cases hfil : (candAux 73985 s.bus s.device s.function).filter present with
    | nil =>
      rw [hfil] at h
      exact absurd h (by simp)
    | cons x rest =>
      rw [hfil] at h
      injection h with h1
      injection h1 with hx hs
      rw [← hs, hx]
  · rw [hgen present3, filter_allTriples_present3]

/-- Witness for C4: on the simulated three-device space, the first `next`
call of a fresh scan yields `(0,0,0)` and resumes from function 1. -/
theorem scan_bus_enumeration_witness :
    (⟨0, 0, 1⟩ : ScanState)
      = ⟨(⟨0, 0, 0⟩ : PCIAddress).bus, (⟨0, 0, 0⟩ : PCIAddress).dev,
         (⟨0, 0, 0⟩ : PCIAddress).fun' + 1⟩ :=
  (scan_bus_enumeration present3).2.1 scan_bus ⟨0, 0, 0⟩ ⟨0, 0, 1⟩ (by decide)

end DriverKit
